import Mathlib

/-!
Verification of the pytubefm / pytuber local record-keeping and sync layer.

The development shallowly embeds the command layer found in
`pytuber/core/commands/cmd_push.py`, `pytuber/core/commands/cmd_setup.py`,
`pytubefm/lastfm/commands.py` and `pytubefm/lastfm/params.py`, together with
the entity managers they rely on (modelled from the design document where the
manager sources are not part of the analysed tree).  Strings are Lean strings;
Python string comparison is embedded as code-point lexicographic order over
`String.data`; Python sets over strings are embedded as duplicate-free lists
with `Finset`-valued statements where the property is about sets.
-/

/-- Code-point lexicographic strict order on character lists (Python string
`<`). -/
def charListLt : List Char → List Char → Bool
  | [], [] => false
  | [], _ :: _ => true
  | _ :: _, [] => false
  | a :: as, b :: bs => if a < b then true else if b < a then false else charListLt as bs

/-- Code-point lexicographic order on character lists (Python string `<=`). -/
def charListLe : List Char → List Char → Bool
  | [], _ => true
  | _ :: _, [] => false
  | a :: as, b :: bs => if a < b then true else if b < a then false else charListLe as bs

/-- Python string strict comparison. -/
def strLt (a b : String) : Bool := charListLt a.data b.data

/-- Python string comparison. -/
def strLe (a b : String) : Bool := charListLe a.data b.data

theorem charListLt_irrefl : ∀ as, charListLt as as = false
  | [] => rfl
  | a :: as => by simp [charListLt, charListLt_irrefl as]

theorem charListLt_asymm : ∀ as bs, charListLt as bs = true → charListLt bs as = false
  | [], [] => by simp [charListLt]
  | [], _ :: _ => by simp [charListLt]
  | _ :: _, [] => by simp [charListLt]
  | a :: as, b :: bs => by
    rcases lt_trichotomy a b with hab | hab | hab
    · simp [charListLt, hab, asymm hab, not_lt_of_lt hab]
    · subst hab
      simp only [charListLt, lt_irrefl a, if_false]
      exact charListLt_asymm as bs
    · simp [charListLt, hab, asymm hab, not_lt_of_lt hab]

theorem charListLt_eq : ∀ as bs, charListLt as bs = false → charListLt bs as = false → as = bs
  | [], [] => by simp
  | [], _ :: _ => by simp [charListLt]
  | _ :: _, [] => by simp [charListLt]
  | a :: as, b :: bs => by
    rcases lt_trichotomy a b with hab | hab | hab
    · simp [charListLt, hab]
    · subst hab
      simp only [charListLt, lt_irrefl a, if_false]
      intro h1 h2
      exact congrArg (List.cons a) (charListLt_eq as bs h1 h2)
    · simp [charListLt, hab, asymm hab, not_lt_of_lt hab]

theorem charListLt_trans :
    ∀ as bs cs, charListLt as bs = true → charListLt bs cs = true → charListLt as cs = true
  | [], [], _ => by simp [charListLt]
  | [], _ :: _, [] => by simp [charListLt]
  | [], _ :: _, _ :: _ => by simp [charListLt]
  | _ :: _, [], _ => by simp [charListLt]
  | _ :: _, _ :: _, [] => by simp [charListLt]
  | a :: as, b :: bs, c :: cs => by
    rcases lt_trichotomy a b with hab | hab | hab
    · rcases lt_trichotomy b c with hbc | hbc | hbc
      · simp [charListLt, lt_trans hab hbc]
      · subst hbc; simp [charListLt, hab]
      · simp [charListLt, hbc, asymm hbc, not_lt_of_lt hbc]
    · subst hab
      rcases lt_trichotomy a c with hac | hac | hac
      · simp [charListLt, hac]
      · subst hac
        simp only [charListLt, lt_irrefl a, if_false]
        exact charListLt_trans as bs cs
      · simp [charListLt, hac, asymm hac, not_lt_of_lt hac]
    · simp [charListLt, hab, asymm hab, not_lt_of_lt hab]

theorem charListLe_total : ∀ as bs, (charListLe as bs || charListLe bs as) = true
  | [], _ => by simp [charListLe]
  | _ :: _, [] => by simp [charListLe]
  | a :: as, b :: bs => by
    rcases lt_trichotomy a b with hab | hab | hab
    · simp [charListLe, hab]
    · subst hab
      simp only [charListLe, lt_irrefl a, if_false]
      exact charListLe_total as bs
    · simp [charListLe, hab, asymm hab, not_lt_of_lt hab]

theorem charListLe_trans :
    ∀ as bs cs, charListLe as bs = true → charListLe bs cs = true → charListLe as cs = true
  | [], _, _ => by simp [charListLe]
  | _ :: _, [], _ => by simp [charListLe]
  | _ :: _, _ :: _, [] => by simp [charListLe]
  | a :: as, b :: bs, c :: cs => by
    rcases lt_trichotomy a b with hab | hab | hab
    · rcases lt_trichotomy b c with hbc | hbc | hbc
      · simp [charListLe, lt_trans hab hbc]
      · subst hbc; simp [charListLe, hab]
      · simp [charListLe, hbc, asymm hbc, not_lt_of_lt hbc]
    · subst hab
      rcases lt_trichotomy a c with hac | hac | hac
      · simp [charListLe, hac]
      · subst hac
        simp only [charListLe, lt_irrefl a, if_false]
        exact charListLe_trans as bs cs
      · simp [charListLe, hac, asymm hac, not_lt_of_lt hac]
    · intro h1 _
      exact absurd h1 (by simp [charListLe, not_lt_of_lt hab, hab])

theorem strLe_total (a b : String) : (strLe a b || strLe b a) = true :=
  charListLe_total a.data b.data

theorem strLe_trans (a b c : String) :
    strLe a b = true → strLe b c = true → strLe a c = true :=
  charListLe_trans a.data b.data c.data

/-- Python `str.lower` restricted to the ASCII case mapping. -/
def lowerStr (s : String) : String := ⟨s.data.map Char.toLower⟩

/-- Python `str.upper` restricted to the ASCII case mapping. -/
def upperStr (s : String) : String := ⟨s.data.map Char.toUpper⟩

/-- A local track record (design document §3 `Track`). -/
structure TrackRec where
  id : String
  artist : String
  name : String
  duration : Option Nat
  youtube_id : Option String
deriving DecidableEq, Repr

/-- A local playlist record (design document §3 `Playlist`). -/
structure Playlist where
  id : String
  type : String
  provider : String
  arguments : List (String × String)
  limit : Int
  title : String
  tracks : List String
  youtube_id : Option String
  modified : Option Nat
  synced : Option Nat
  uploaded : Option Nat
deriving DecidableEq, Repr

/-- Modelled from the spec: an item of a remote playlist as returned by
`YouService.get_playlist_items` (external collaborator, §6
`list_remote_items`): a remote item identifier together with the video id it
points at. -/
structure PlaylistItem where
  item_id : String
  video_id : String
deriving DecidableEq, Repr

/-- Modelled from the spec: the total order used by Python `sorted` on remote
playlist items (`sorted(remove)` in `push_tracks`), comparing the item fields
lexicographically. -/
def itemLe (x y : PlaylistItem) : Bool :=
  if strLt x.item_id y.item_id then true
  else if strLt y.item_id x.item_id then false
  else strLe x.video_id y.video_id

theorem itemLe_total (x y : PlaylistItem) : (itemLe x y || itemLe y x) = true := by
  by_cases h1 : strLt x.item_id y.item_id = true
  · simp [itemLe, h1]
  · by_cases h2 : strLt y.item_id x.item_id = true
    · simp [itemLe, h1, h2]
    · simpa [itemLe, h1, h2] using strLe_total x.video_id y.video_id

theorem itemLe_trans (x y z : PlaylistItem) :
    itemLe x y = true → itemLe y z = true → itemLe x z = true := by
  intro hxy hyz
  by_cases h1 : charListLt x.item_id.data y.item_id.data = true
  · by_cases h2 : charListLt y.item_id.data z.item_id.data = true
    · simp [itemLe, strLt, charListLt_trans _ _ _ h1 h2]
    · by_cases h3 : charListLt z.item_id.data y.item_id.data = true
      · exact absurd hyz (by simp [itemLe, strLt, h2, h3])
      · have he : y.item_id.data = z.item_id.data :=
          charListLt_eq _ _ (by simpa using h2) (by simpa using h3)
        simp [itemLe, strLt, ← he, h1]
  · by_cases h4 : charListLt y.item_id.data x.item_id.data = true
    · exact absurd hxy (by simp [itemLe, strLt, h1, h4])
    · have hexy : x.item_id.data = y.item_id.data :=
        charListLt_eq _ _ (by simpa using h1) (by simpa using h4)
      by_cases h2 : charListLt y.item_id.data z.item_id.data = true
      · simp [itemLe, strLt, hexy, h2]
      · by_cases h3 : charListLt z.item_id.data y.item_id.data = true
        · exact absurd hyz (by simp [itemLe, strLt, h2, h3])
        · have heyz : y.item_id.data = z.item_id.data :=
            charListLt_eq _ _ (by simpa using h2) (by simpa using h3)
          have hv1 : strLe x.video_id y.video_id = true := by
            simpa [itemLe, strLt, h1, h4] using hxy
          have hv2 : strLe y.video_id z.video_id = true := by
            simpa [itemLe, strLt, h2, h3] using hyz
          have hv := strLe_trans _ _ _ hv1 hv2
          simp [itemLe, strLt, hexy, heyz, charListLt_irrefl, hv]

/-- `strLe` as a relation, for use with `List.insertionSort`. -/
def StrLeRel (a b : String) : Prop := strLe a b = true

instance : DecidableRel StrLeRel := fun a b => by
  unfold StrLeRel; infer_instance

instance : IsTotal String StrLeRel :=
  ⟨fun a b => (Bool.or_eq_true _ _).mp (strLe_total a b)⟩

instance : IsTrans String StrLeRel :=
  ⟨fun a b c => strLe_trans a b c⟩

/-- `itemLe` as a relation, for use with `List.insertionSort`. -/
def ItemLeRel (x y : PlaylistItem) : Prop := itemLe x y = true

instance : DecidableRel ItemLeRel := fun x y => by
  unfold ItemLeRel; infer_instance

instance : IsTotal PlaylistItem ItemLeRel :=
  ⟨fun x y => (Bool.or_eq_true _ _).mp (itemLe_total x y)⟩

instance : IsTrans PlaylistItem ItemLeRel :=
  ⟨fun x y z => itemLe_trans x y z⟩

/-- A remote mutation issued by `push tracks`: `YouService.create_playlist_item`
or `YouService.remove_playlist_item`. -/
inductive RemoteCall where
  | addItem (playlistId : String) (videoId : String)
  | removeItem (item : PlaylistItem)
deriving DecidableEq, Repr

def RemoteCall.isAdd : RemoteCall → Bool
  | .addItem _ _ => true
  | .removeItem _ => false

/-- The video ids carried by the add-item calls, in call order. -/
def addedVideoIds (calls : List RemoteCall) : List String :=
  calls.filterMap fun c =>
    match c with
    | .addItem _ v => some v
    | .removeItem _ => none

/-- The remote items carried by the remove-item calls, in call order. -/
def removedItems (calls : List RemoteCall) : List PlaylistItem :=
  calls.filterMap fun c =>
    match c with
    | .addItem _ _ => none
    | .removeItem it => some it

/-- Modelled from the spec: `TrackManager.find(youtube_id=lambda x: x is not
None, id=lambda x: x in playlist.tracks)` — the manager source is not in the
analysed tree; §4.3 specifies AND-combined exact/predicate per-field filters
over the track collection. -/
def findTracks (store : List TrackRec) (p : Playlist) : List TrackRec :=
  store.filter fun t => t.youtube_id.isSome && p.tracks.contains t.id

/-- `online = set(item.video_id for item in items)` in `push_tracks`. -/
def onlineIds (items : List PlaylistItem) : List String :=
  (items.map (·.video_id)).dedup

/-- `offline = set(track.youtube_id for track in TrackManager.find(...))` in
`push_tracks`. -/
def offlineIds (store : List TrackRec) (p : Playlist) : List String :=
  ((findTracks store p).filterMap (·.youtube_id)).dedup

/-- `add = offline - online` in `push_tracks`. -/
def addIds (store : List TrackRec) (items : List PlaylistItem) (p : Playlist) : List String :=
  (offlineIds store p).filter fun v => !((onlineIds items).contains v)

/-- `remove = online - offline` in `push_tracks`. -/
def removeIds (store : List TrackRec) (items : List PlaylistItem) (p : Playlist) : List String :=
  (onlineIds items).filter fun v => !((offlineIds store p).contains v)

/-- One iteration of the `push_tracks` loop (`cmd_push.py` lines 42-79) for a
playlist with a remote identity: the remote calls issued, in order, and the
resulting local playlist record.  When both diff sets are empty the code hits
`continue` and neither issues calls nor touches the record; otherwise it adds
the sorted missing videos, removes the matching remote items (sorted), then
stamps `uploaded` with the current timestamp via `PlaylistManager.update`,
which per §4.4/§3 also bumps the record's `modified` timestamp. -/
def pushTracksOne (now : Nat) (store : List TrackRec) (items : List PlaylistItem)
    (p : Playlist) : List RemoteCall × Playlist :=
  let add := addIds store items p
  let remove := removeIds store items p
  if add.isEmpty && remove.isEmpty then ([], p)
  else
    ((add.insertionSort StrLeRel).map (RemoteCall.addItem p.id) ++
      ((items.filter fun it => remove.contains it.video_id).insertionSort ItemLeRel).map
        RemoteCall.removeItem,
      { p with uploaded := some now, modified := some now })

/-- Registry-style replace-by-id, the effect of `PlaylistManager.update` on the
stored collection (§4.1 `set(collection, id, record)`). -/
def updateById (store : List Playlist) (pid : String) (f : Playlist → Playlist) :
    List Playlist :=
  store.map fun q => if q.id == pid then f q else q

/-- `PlaylistManager.find(youtube_id=None)` in `push_playlists`. -/
def playlistsWithoutYoutube (store : List Playlist) : List Playlist :=
  store.filter fun p => p.youtube_id.isNone

/-- The `push_playlists` command (`cmd_push.py` lines 22-34): for every
playlist without a remote identity, create it remotely and store the returned
id via `PlaylistManager.update`, which per §4.4/§3 also bumps the record's
`modified` timestamp.  `create` is the external `YouService.create_playlist`
collaborator. -/
def pushPlaylists (now : Nat) (create : Playlist → String) (store : List Playlist) :
    List Playlist :=
  (playlistsWithoutYoutube store).foldl
    (fun s p => updateById s p.id fun q =>
      { q with youtube_id := some (create p), modified := some now })
    store

/-- Modelled from the spec: the deterministic `Track` identity hash over
case-insensitive `(artist, name)` (§3, §9: canonical serialization of the
identity-bearing fields; the manager source is not in the analysed tree). -/
def trackId (artist name : String) : String :=
  lowerStr artist ++ "::" ++ lowerStr name

/-- Modelled from the spec: the merge of non-null incoming fields into an
existing track record (§4.3, §9: absent fields leave the stored value
unchanged). -/
def mergeTrack (t : TrackRec) (artist name : String) (duration : Option Nat) : TrackRec :=
  { t with
    artist := artist
    name := name
    duration := match duration with | some d => some d | none => t.duration }

/-- Modelled from the spec: `TrackManager.set` (§4.3) — compute the id from
`(artist, name)`; merge non-null incoming fields into an existing record, else
insert a fresh record; return the resulting record. -/
def trackSet (store : List TrackRec) (artist name : String) (duration : Option Nat) :
    List TrackRec × TrackRec :=
  let tid := trackId artist name
  match store.find? (fun t => t.id == tid) with
  | some t =>
    (store.map fun u => if u.id == tid then mergeTrack t artist name duration else u,
      mergeTrack t artist name duration)
  | none =>
    let fresh : TrackRec := ⟨tid, artist, name, duration, none⟩
    (store ++ [fresh], fresh)

/-- An entry of the tracklist fetched from last.fm (`LastService.get_tracks`,
external collaborator, §6 `fetch_tracks`). -/
structure FetchedTrack where
  artist : String
  name : String
  duration : Option Nat
deriving DecidableEq, Repr

/-- The track-upsert loop of `sync_playlists` (`commands.py` lines 324-335):
thread the track store through `TrackManager.set` for every fetched entry,
collecting the ids of the returned records in order. -/
def trackSetFold (store : List TrackRec) (ts : List FetchedTrack) :
    List TrackRec × List String :=
  ts.foldl
    (fun acc e =>
      let out := trackSet acc.1 e.artist e.name e.duration
      (out.1, acc.2 ++ [out.2.id]))
    (store, [])

/-- One iteration of the `sync_playlists` loop for one playlist: upsert every
fetched track, then store the de-duplicated id set as the playlist's `tracks`
via `PlaylistManager.update` (which also bumps `modified`, §4.4). -/
def syncOnePlaylist (now : Nat) (store : List TrackRec) (p : Playlist)
    (ts : List FetchedTrack) : List TrackRec × Playlist :=
  let f := trackSetFold store ts
  (f.1, { p with tracks := f.2.dedup, modified := some now })

/-- Modelled from the spec: the deterministic `Playlist` identity hash over
`(type, provider, arguments, limit)` (§3, §9; title is not part of the
identity). -/
def playlistId (ty prov : String) (args : List (String × String)) (limit : Int) : String :=
  ty ++ "|" ++ prov ++ "|" ++ String.join (args.map fun kv => kv.1 ++ "=" ++ kv.2 ++ ";") ++
    toString limit

/-- Modelled from the spec: `PlaylistManager.set` (§4.4) — compute the id from
`(type, provider, arguments, limit)`; on an existing id merge `title` and bump
`modified`, leaving `tracks`/`youtube_id`/`synced`/`uploaded` untouched; else
insert a fresh record with `synced` unset.  Returns the resulting record. -/
def playlistSet (store : List Playlist) (now : Nat) (ty prov : String)
    (args : List (String × String)) (limit : Int) (title : String) :
    List Playlist × Playlist :=
  let pid := playlistId ty prov args limit
  match store.find? (fun q => q.id == pid) with
  | some q =>
    let merged := { q with title := title, modified := some now }
    (store.map fun u => if u.id == pid then merged else u, merged)
  | none =>
    let fresh : Playlist :=
      { id := pid, type := ty, provider := prov, arguments := args, limit := limit,
        title := title, tracks := [], youtube_id := none, modified := some now,
        synced := none, uploaded := none }
    (store ++ [fresh], fresh)

/-- Python truthiness of an optional integer timestamp (`if playlist.synced`). -/
def syncedTruthy : Option Nat → Bool
  | none => false
  | some n => n != 0

/-- The success message of every lastfm `add` command (`commands.py`, e.g.
lines 124-128): `"{} playlist: {}!".format("Updated" if playlist.synced else
"Added", playlist.id)`. -/
def addPlaylistMessage (p : Playlist) : String :=
  (if syncedTruthy p.synced then "Updated" else "Added") ++ " playlist: " ++ p.id ++ "!"

/-- A provider configuration record (§3 `Config`). -/
structure ConfigRec where
  provider : String
  data : List (String × String)
deriving DecidableEq, Repr

/-- The shared shape of both providers' `setup` commands (`commands.py` lines
40-54 and `cmd_setup.py` lines 9-35): prompt for overwrite confirmation only
when a configuration already exists; on decline `click.confirm(abort=True)`
aborts with a non-zero exit before `ConfigManager.set` is reached.  Returns
(prompted, final configuration, exit code). -/
def setupCommand (existing : Option ConfigRec) (confirm : Bool) (newRec : ConfigRec) :
    Bool × Option ConfigRec × Nat :=
  match existing with
  | some c => if confirm then (true, some newRec, 0) else (true, some c, 1)
  | none => (false, some newRec, 0)

/-- The lastfm `setup` command: the stored record is
`dict(provider="lastfm", data=dict(api_key=api_key))`. -/
def lastfmSetup (existing : Option ConfigRec) (confirm : Bool) (apiKey : String) :
    Bool × Option ConfigRec × Nat :=
  setupCommand existing confirm ⟨"lastfm", [("api_key", apiKey)]⟩

/-- The youtube `setup` command: the stored record carries the credentials
obtained from `YouService.authorize` (external collaborator). -/
def youtubeSetup (existing : Option ConfigRec) (confirm : Bool)
    (creds : List (String × String)) : Bool × Option ConfigRec × Nat :=
  setupCommand existing confirm ⟨"youtube", creds⟩

/-- Outcome of the lastfm `remove` command. -/
inductive RemoveOutcome where
  | abortedConfirm
  | failedNotFound (calls : List String)
  | completed (calls : List String)
deriving DecidableEq, Repr

/-- The ids `PlaylistManager.remove` was called with, in call order. -/
def removeCallIds : RemoveOutcome → List String
  | .abortedConfirm => []
  | .failedNotFound cs => cs
  | .completed cs => cs

/-- Process exit code of the `remove` command: `click.Abort` and an uncaught
`NotFoundError` both terminate with a non-zero code. -/
def removeExitCode : RemoveOutcome → Nat
  | .abortedConfirm => 1
  | .failedNotFound _ => 1
  | .completed _ => 0

/-- Modelled from the spec: `PlaylistManager.remove` (§4.1, §4.4) fails with
`NotFoundError` when the id is absent, else deletes the record. -/
def playlistRemove (store : List Playlist) (pid : String) : Option (List Playlist) :=
  if store.any (fun q => q.id == pid) then
    some (store.filter fun q => !(q.id == pid))
  else none

/-- The id loop of `remove_playlists` (`commands.py` lines 305-307). -/
def removeLoop (store : List Playlist) (ids : List String) (acc : List String) :
    RemoveOutcome × List Playlist :=
  match ids with
  | [] => (.completed acc, store)
  | pid :: rest =>
    match playlistRemove store pid with
    | some s => removeLoop s rest (acc ++ [pid])
    | none => (.failedNotFound (acc ++ [pid]), store)

/-- The lastfm `remove` command (`commands.py` lines 299-307):
`click.confirm(abort=True)` gates the whole loop. -/
def removePlaylistsCmd (confirm : Bool) (store : List Playlist) (ids : List String) :
    RemoveOutcome × List Playlist :=
  if confirm then removeLoop store ids [] else (.abortedConfirm, store)

/-- Association-list lookup, the embedding of the `countries` mapping access. -/
def lookupKey (m : List (String × String)) (k : String) : Option String :=
  (m.find? fun kv => kv.1 == k).map (·.2)

/-- `CountryParamType.convert` (`params.py` lines 10-14):
`countries[value.upper()].lower()`, failing with a click validation error on
`KeyError`.  The `countries` table itself (`pytubefm/iso3166.py`) is not in
the analysed tree and is passed in as a mapping. -/
def countryConvert (countries : List (String × String)) (value : String) :
    Except String String :=
  match lookupKey countries (upperStr value) with
  | some name => .ok (lowerStr name)
  | none => .error ("Unknown iso-3166 country code: " ++ value)

/-- Modelled from the spec: `click.IntRange(lo, hi)` (external library) accepts
exactly the integers of the inclusive range and rejects anything else at
parameter-conversion time. -/
def intRange (lo hi v : Int) : Except String Int :=
  if lo ≤ v ∧ v ≤ hi then .ok v else .error "value out of range"

/-- Modelled from the spec: `History.get(key, default)` (§3 History: key/value
scratch space used to prefill prompts). -/
def historyGetNat (h : List (String × Nat)) (k : String) (d : Nat) : Nat :=
  match (h.find? fun kv => kv.1 == k).map (·.2) with
  | some v => v
  | none => d

/-- The default offered by `option_limit` (`commands.py` lines 73-80):
`lambda: History.get("limit", 50)`. -/
def defaultLimit (h : List (String × Nat)) : Nat :=
  historyGetNat h "limit" 50

/-- Python `str.strip()` over the title argument. -/
def trimChars (cs : List Char) : List Char :=
  ((cs.dropWhile (·.isWhitespace)).reverse.dropWhile (·.isWhitespace)).reverse

/-- Python `str.strip()`. -/
def trimStr (s : String) : String := ⟨trimChars s.data⟩

/-- The `add chart` command pipeline: click converts `--limit` through
`IntRange(50, 1000)` before the callback body runs, so an out-of-range value
aborts before `PlaylistManager.set`; the callback stores the playlist and
reports the Added/Updated message (`commands.py` lines 131-150). -/
def addChartCommand (store : List Playlist) (now : Nat) (limit : Int) (title : String) :
    List Playlist × Except String String :=
  match intRange 50 1000 limit with
  | .error e => (store, .error e)
  | .ok lim =>
    let out := playlistSet store now "chart" "lastfm" [] lim (trimStr title)
    (out.1, .ok (addPlaylistMessage out.2))

/-- The `add country` command pipeline (`commands.py` lines 153-179): click
converts `--country` through `CountryParamType` and `--limit` through
`IntRange(50, 1000)` before the callback body runs. -/
def addCountryCommand (countries : List (String × String)) (store : List Playlist)
    (now : Nat) (country : String) (limit : Int) (title : String) :
    List Playlist × Except String String :=
  match countryConvert countries country with
  | .error e => (store, .error e)
  | .ok c =>
    match intRange 50 1000 limit with
    | .error e => (store, .error e)
    | .ok lim =>
      let out := playlistSet store now "country" "lastfm" [("country", c)] lim (trimStr title)
      (out.1, .ok (addPlaylistMessage out.2))

theorem mem_addIds {store : List TrackRec} {items : List PlaylistItem} {p : Playlist}
    {v : String} :
    v ∈ addIds store items p ↔ v ∈ offlineIds store p ∧ v ∉ onlineIds items := by
  simp [addIds, List.mem_filter, List.elem_iff]

theorem mem_removeIds {store : List TrackRec} {items : List PlaylistItem} {p : Playlist}
    {v : String} :
    v ∈ removeIds store items p ↔ v ∈ onlineIds items ∧ v ∉ offlineIds store p := by
  simp [removeIds, List.mem_filter, List.elem_iff]

theorem addIds_toFinset (store : List TrackRec) (items : List PlaylistItem) (p : Playlist) :
    (addIds store items p).toFinset =
      (offlineIds store p).toFinset \ (onlineIds items).toFinset := by
  ext v
  simp [Finset.mem_sdiff, List.mem_toFinset, mem_addIds]

theorem removeIds_toFinset (store : List TrackRec) (items : List PlaylistItem) (p : Playlist) :
    (removeIds store items p).toFinset =
      (onlineIds items).toFinset \ (offlineIds store p).toFinset := by
  ext v
  simp [Finset.mem_sdiff, List.mem_toFinset, mem_removeIds]

theorem pushTracksOne_empty (now : Nat) (store : List TrackRec) (items : List PlaylistItem)
    (p : Playlist)
    (h : ((addIds store items p).isEmpty && (removeIds store items p).isEmpty) = true) :
    pushTracksOne now store items p = ([], p) := by
  simp only [pushTracksOne]
  rw [if_pos h]

theorem pushTracksOne_nonempty (now : Nat) (store : List TrackRec)
    (items : List PlaylistItem) (p : Playlist)
    (h : ¬ ((addIds store items p).isEmpty && (removeIds store items p).isEmpty) = true) :
    pushTracksOne now store items p =
      (((addIds store items p).insertionSort StrLeRel).map (RemoteCall.addItem p.id) ++
        ((items.filter fun it =>
            (removeIds store items p).contains it.video_id).insertionSort ItemLeRel).map
          RemoteCall.removeItem,
        { p with uploaded := some now, modified := some now }) := by
  simp only [pushTracksOne]
  rw [if_neg h]

theorem addedVideoIds_append (a b : List RemoteCall) :
    addedVideoIds (a ++ b) = addedVideoIds a ++ addedVideoIds b :=
  List.filterMap_append a b _

theorem removedItems_append (a b : List RemoteCall) :
    removedItems (a ++ b) = removedItems a ++ removedItems b :=
  List.filterMap_append a b _

theorem addedVideoIds_addMap (pid : String) : ∀ vs : List String,
    addedVideoIds (vs.map (RemoteCall.addItem pid)) = vs
  | [] => rfl
  | v :: t => congrArg (v :: ·) (addedVideoIds_addMap pid t)

theorem addedVideoIds_removeMap : ∀ its : List PlaylistItem,
    addedVideoIds (its.map RemoteCall.removeItem) = []
  | [] => rfl
  | _ :: t => addedVideoIds_removeMap t

theorem removedItems_addMap (pid : String) : ∀ vs : List String,
    removedItems (vs.map (RemoteCall.addItem pid)) = []
  | [] => rfl
  | _ :: t => removedItems_addMap pid t

theorem removedItems_removeMap : ∀ its : List PlaylistItem,
    removedItems (its.map RemoteCall.removeItem) = its
  | [] => rfl
  | it :: t => congrArg (it :: ·) (removedItems_removeMap t)

/-- C1: for a playlist reconciled by `push tracks`, with `online` the video ids
fetched from the remote playlist and `offline` the youtube ids of the local
tracks with a remote identity that belong to the playlist, the video ids added
remotely are exactly `offline − online`, the remote items removed are exactly
the fetched items whose video id lies in `online − offline`, and when both
differences are empty no remote call is issued at all. -/
theorem push_tracks_diff_correct (now : Nat) (store : List TrackRec)
    (items : List PlaylistItem) (p : Playlist) :
    (addedVideoIds (pushTracksOne now store items p).1).toFinset =
        (offlineIds store p).toFinset \ (onlineIds items).toFinset ∧
    List.Perm (removedItems (pushTracksOne now store items p).1)
        (items.filter fun it =>
          it.video_id ∈ (onlineIds items).toFinset \ (offlineIds store p).toFinset) ∧
    ((offlineIds store p).toFinset \ (onlineIds items).toFinset = ∅ →
      (onlineIds items).toFinset \ (offlineIds store p).toFinset = ∅ →
      (pushTracksOne now store items p).1 = []) := by
  by_cases h : ((addIds store items p).isEmpty && (removeIds store items p).isEmpty) = true
  · have ha : addIds store items p = [] := by
      have := (Bool.and_eq_true _ _).mp h
      exact List.isEmpty_iff.mp this.1
    have hr : removeIds store items p = [] := by
      have := (Bool.and_eq_true _ _).mp h
      exact List.isEmpty_iff.mp this.2
    rw [pushTracksOne_empty now store items p h]
    refine ⟨?_, ?_, fun _ _ => rfl⟩
    · show (addedVideoIds []).toFinset = _
      rw [← addIds_toFinset store items p, ha]
      rfl
    · show List.Perm (removedItems []) _
      have hfil : (items.filter fun it =>
          it.video_id ∈ (onlineIds items).toFinset \ (offlineIds store p).toFinset) = [] := by
        rw [List.filter_eq_nil_iff]
        intro it _
        rw [← removeIds_toFinset, hr]
        simp
      rw [hfil]
      exact List.Perm.nil
  · rw [pushTracksOne_nonempty now store items p h]
    have hfil : (items.filter fun it => (removeIds store items p).contains it.video_id) =
        items.filter fun it =>
          it.video_id ∈ (onlineIds items).toFinset \ (offlineIds store p).toFinset := by
      refine List.filter_congr fun it _ => ?_
      by_cases hm : it.video_id ∈ removeIds store items p
      · have hm2 : it.video_id ∈ (onlineIds items).toFinset \ (offlineIds store p).toFinset := by
          rw [← removeIds_toFinset]
          exact List.mem_toFinset.mpr hm
        simp [List.elem_iff, hm, hm2]
      · have hm2 : ¬ it.video_id ∈ (onlineIds items).toFinset \ (offlineIds store p).toFinset := by
          rw [← removeIds_toFinset]
          exact fun hc => hm (List.mem_toFinset.mp hc)
        simp [List.elem_iff, hm, hm2]
    refine ⟨?_, ?_, ?_⟩
    · rw [addedVideoIds_append, addedVideoIds_addMap, addedVideoIds_removeMap,
        List.append_nil, List.toFinset_eq_of_perm _ _ (List.perm_insertionSort StrLeRel _),
        addIds_toFinset]
    · rw [removedItems_append, removedItems_addMap, List.nil_append, removedItems_removeMap,
        hfil]
      exact List.perm_insertionSort ItemLeRel _
    · intro h1 h2
      exfalso
      apply h
      have ha : addIds store items p = [] := by
        rw [← addIds_toFinset] at h1
        exact List.toFinset_eq_empty_iff _ |>.mp h1
      have hr : removeIds store items p = [] := by
        rw [← removeIds_toFinset] at h2
        exact List.toFinset_eq_empty_iff _ |>.mp h2
      rw [ha, hr]
      rfl

/-- Concrete fixture track with a youtube id. -/
def exTrack (i v : String) : TrackRec := ⟨i, "artist", "name", none, some v⟩

/-- Concrete fixture playlist that already has a remote identity. -/
def exPlaylist : Playlist :=
  { id := "p1", type := "chart", provider := "lastfm", arguments := [], limit := 50,
    title := "t", tracks := ["t1", "t2", "t3"], youtube_id := some "y1",
    modified := none, synced := none, uploaded := none }

/-- Fixture track store: local desired video set is `{1, 2, 3}`. -/
def exTracks : List TrackRec := [exTrack "t1" "1", exTrack "t2" "2", exTrack "t3" "3"]

/-- Fixture remote items: remote video set is `{2, 3, 4}` (spec §8 diff vector). -/
def exItemsDiff : List PlaylistItem := [⟨"i2", "2"⟩, ⟨"i3", "3"⟩, ⟨"i4", "4"⟩]

/-- Fixture remote items matching the local desired set exactly. -/
def exItemsSame : List PlaylistItem := [⟨"i1", "1"⟩, ⟨"i2", "2"⟩, ⟨"i3", "3"⟩]

theorem push_tracks_diff_correct_witness :
    (offlineIds exTracks exPlaylist).toFinset \ (onlineIds exItemsSame).toFinset = ∅ ∧
    (onlineIds exItemsSame).toFinset \ (offlineIds exTracks exPlaylist).toFinset = ∅ ∧
    (pushTracksOne 7 exTracks exItemsSame exPlaylist).1 = [] :=
  ⟨by decide, by decide,
    (push_tracks_diff_correct 7 exTracks exItemsSame exPlaylist).2.2 (by decide) (by decide)⟩

theorem adds_before_removes {A R : List RemoteCall}
    (hA : ∀ c ∈ A, c.isAdd = true) (hR : ∀ c ∈ R, c.isAdd = false)
    (i j : Nat) (hi : i < (A ++ R).length) (hj : j < (A ++ R).length)
    (hadd : ((A ++ R).get ⟨i, hi⟩).isAdd = true)
    (hrem : ((A ++ R).get ⟨j, hj⟩).isAdd = false) : i < j := by
  rw [List.get_eq_getElem] at hadd hrem
  have hiA : i < A.length := by
    rcases Nat.lt_or_ge i A.length with h | h
    · exact h
    · exfalso
      have hlen : i - A.length < R.length := by
        have hi2 := hi
        rw [List.length_append] at hi2
        omega
      rw [List.getElem_append_right h] at hadd
      have := hR _ (List.getElem_mem hlen)
      rw [this] at hadd
      cases hadd
  have hjR : A.length ≤ j := by
    rcases Nat.lt_or_ge j A.length with h | h
    · exfalso
      rw [List.getElem_append_left h] at hrem
      have := hA _ (List.getElem_mem h)
      rw [this] at hrem
      cases hrem
    · exact h
  omega

/-- C2: in every reconciliation performed by `push tracks`, every add-item call
precedes every remove-item call, the added video ids are issued in ascending
sorted order, and the removed items are issued in sorted order. -/
theorem push_tracks_call_order (now : Nat) (store : List TrackRec)
    (items : List PlaylistItem) (p : Playlist) :
    List.Sorted StrLeRel (addedVideoIds (pushTracksOne now store items p).1) ∧
    List.Sorted ItemLeRel (removedItems (pushTracksOne now store items p).1) ∧
    ∀ i j (hi : i < (pushTracksOne now store items p).1.length)
        (hj : j < (pushTracksOne now store items p).1.length),
      (((pushTracksOne now store items p).1.get ⟨i, hi⟩).isAdd = true) →
      (((pushTracksOne now store items p).1.get ⟨j, hj⟩).isAdd = false) → i < j := by
  by_cases h : ((addIds store items p).isEmpty && (removeIds store items p).isEmpty) = true
  · rw [pushTracksOne_empty now store items p h]
    refine ⟨List.sorted_nil, List.sorted_nil, ?_⟩
    intro i j hi _ _ _
    exact absurd hi (by simp)
  · rw [pushTracksOne_nonempty now store items p h]
    refine ⟨?_, ?_, ?_⟩
    · rw [addedVideoIds_append, addedVideoIds_addMap, addedVideoIds_removeMap,
        List.append_nil]
      exact List.sorted_insertionSort StrLeRel _
    · rw [removedItems_append, removedItems_addMap, List.nil_append, removedItems_removeMap]
      exact List.sorted_insertionSort ItemLeRel _
    · refine adds_before_removes ?_ ?_
      · intro c hc
        rcases List.mem_map.mp hc with ⟨v, _, rfl⟩
        rfl
      · intro c hc
        rcases List.mem_map.mp hc with ⟨it, _, rfl⟩
        rfl

theorem push_tracks_call_order_witness :
    0 < (pushTracksOne 7 exTracks exItemsDiff exPlaylist).1.length ∧
    1 < (pushTracksOne 7 exTracks exItemsDiff exPlaylist).1.length ∧
    (0 : Nat) < 1 :=
  ⟨by decide, by decide,
    (push_tracks_call_order 7 exTracks exItemsDiff exPlaylist).2.2 0 1
      (by decide) (by decide) (by decide) (by decide)⟩

theorem push_tracks_stamp_cex :
    exPlaylist.youtube_id.isSome = true ∧
    (pushTracksOne 7 exTracks exItemsSame exPlaylist).2.uploaded ≠ some 7 ∧
    (pushTracksOne 7 exTracks exItemsSame exPlaylist).2.uploaded = none :=
  ⟨by decide, by decide, by decide⟩

/-- C3 (amended): `push tracks` stamps the playlist's `uploaded` timestamp via
`PlaylistManager.update` (which also bumps `modified`, §4.4) exactly when the
reconciliation issued remote calls; a playlist whose add and remove sets are
both empty is skipped by `continue` and its record is left completely
unchanged. -/
theorem push_tracks_stamp_amended (now : Nat) (store : List TrackRec)
    (items : List PlaylistItem) (p : Playlist) :
    (¬ (addIds store items p = [] ∧ removeIds store items p = []) →
      (pushTracksOne now store items p).2 =
        { p with uploaded := some now, modified := some now }) ∧
    (addIds store items p = [] ∧ removeIds store items p = [] →
      (pushTracksOne now store items p).2 = p) := by
  constructor
  · intro hne
    have h : ¬ ((addIds store items p).isEmpty && (removeIds store items p).isEmpty) = true := by
      intro hc
      have hc2 := (Bool.and_eq_true _ _).mp hc
      exact hne ⟨List.isEmpty_iff.mp hc2.1, List.isEmpty_iff.mp hc2.2⟩
    rw [pushTracksOne_nonempty now store items p h]
  · rintro ⟨ha, hr⟩
    have h : ((addIds store items p).isEmpty && (removeIds store items p).isEmpty) = true := by
      rw [ha, hr]
      rfl
    rw [pushTracksOne_empty now store items p h]

theorem push_tracks_stamp_amended_witness :
    ¬ (addIds exTracks exItemsDiff exPlaylist = [] ∧
        removeIds exTracks exItemsDiff exPlaylist = []) ∧
    (pushTracksOne 7 exTracks exItemsDiff exPlaylist).2 =
      { exPlaylist with uploaded := some 7, modified := some 7 } :=
  ⟨by decide, (push_tracks_stamp_amended 7 exTracks exItemsDiff exPlaylist).1 (by decide)⟩

theorem foldl_updateById (now : Nat) (create : Playlist → String) :
    ∀ (sel : List Playlist) (store : List Playlist),
      (sel.map Playlist.id).Nodup →
      sel.foldl
          (fun s p => updateById s p.id fun q =>
            { q with youtube_id := some (create p), modified := some now })
          store =
        store.map fun q =>
          match sel.find? (fun p => p.id == q.id) with
          | some p => { q with youtube_id := some (create p), modified := some now }
          | none => q
  | [], store => fun _ => by
    simp [List.foldl_nil, List.find?_nil]
  | p :: rest, store => fun hnd => by
    have hnd2 : (p.id :: rest.map Playlist.id).Nodup := by simpa using hnd
    have hndtail : (rest.map Playlist.id).Nodup := (List.nodup_cons.mp hnd2).2
    have hpid : p.id ∉ rest.map Playlist.id := (List.nodup_cons.mp hnd2).1
    rw [List.foldl_cons, foldl_updateById now create rest _ hndtail]
    rw [updateById, List.map_map]
    refine List.map_congr_left fun q _ => ?_
    by_cases hqp : (q.id == p.id) = true
    · have hqe : q.id = p.id := by simpa using hqp
      have hrest : rest.find? (fun p2 => p2.id == q.id) = none := by
        rw [List.find?_eq_none]
        intro x hx hbeq
        have hxq : x.id = q.id := by simpa using hbeq
        exact hpid (by rw [← hqe, ← hxq]; exact List.mem_map_of_mem Playlist.id hx)
      have hhead : (p :: rest).find? (fun p2 => p2.id == q.id) = some p :=
        List.find?_cons_of_pos _ (by simp [hqe])
      rw [hhead]
      simp only [Function.comp, hqp, if_true]
      rw [hrest]
    · have hqe : q.id ≠ p.id := by simpa using hqp
      have hhead : (p :: rest).find? (fun p2 => p2.id == q.id) =
          rest.find? (fun p2 => p2.id == q.id) :=
        List.find?_cons_of_neg _ (by simp only [beq_iff_eq]; exact fun h => hqe h.symm)
      rw [hhead]
      simp only [Function.comp, hqp, if_false, Bool.false_eq_true]

/-- C5: `push playlists` iterates exactly over the playlists whose
`youtube_id` is unset; each of those ends up with the id returned by the
remote create call for it (with `modified` bumped by `PlaylistManager.update`
per §4.4), and every playlist that already had a `youtube_id` is left
untouched. -/
theorem push_playlists_correct (now : Nat) (create : Playlist → String)
    (store : List Playlist) (hnd : (store.map Playlist.id).Nodup) :
    playlistsWithoutYoutube store = store.filter (fun p => p.youtube_id.isNone) ∧
    pushPlaylists now create store =
      store.map fun q =>
        if q.youtube_id.isNone then
          { q with youtube_id := some (create q), modified := some now }
        else q := by
  refine ⟨rfl, ?_⟩
  rw [pushPlaylists]
  have hsel : ((playlistsWithoutYoutube store).map Playlist.id).Nodup :=
    ((List.filter_sublist store).map Playlist.id).nodup hnd
  rw [foldl_updateById now create _ store hsel]
  refine List.map_congr_left fun q hq => ?_
  by_cases hy : q.youtube_id.isNone = true
  · rcases hf : (playlistsWithoutYoutube store).find? (fun p => p.id == q.id) with _ | p
    · exfalso
      rw [List.find?_eq_none] at hf
      exact hf q (List.mem_filter.mpr ⟨hq, hy⟩) (by simp)
    · have hpmem := List.mem_of_find?_eq_some hf
      have hpq : p.id = q.id := by simpa using List.find?_some hf
      have hpstore : p ∈ store := (List.mem_filter.mp hpmem).1
      have hpqe : p = q := List.inj_on_of_nodup_map hnd hpstore hq hpq
      rw [hf, hpqe, if_pos hy]
  · rcases hf : (playlistsWithoutYoutube store).find? (fun p => p.id == q.id) with _ | p
    · rw [hf, if_neg hy]
    · exfalso
      have hpmem := List.mem_of_find?_eq_some hf
      have hpq : p.id = q.id := by simpa using List.find?_some hf
      have hpstore : p ∈ store := (List.mem_filter.mp hpmem).1
      have hpy : p.youtube_id.isNone = true := by
        have := (List.mem_filter.mp hpmem).2
        simpa using this
      have hpqe : p = q := List.inj_on_of_nodup_map hnd hpstore hq hpq
      rw [hpqe] at hpy
      exact hy hpy

/-- Fixture playlist without a remote identity. -/
def exPlaylistNoY : Playlist :=
  { exPlaylist with id := "p2", youtube_id := none }

/-- Fixture playlist store containing one pushed and one unpushed playlist. -/
def exStoreP : List Playlist := [exPlaylist, exPlaylistNoY]

/-- Fixture stand-in for the external `YouService.create_playlist` call. -/
def exCreate : Playlist → String := fun p => "yt-" ++ p.id

theorem push_playlists_correct_witness :
    (exStoreP.map Playlist.id).Nodup ∧
    pushPlaylists 7 exCreate exStoreP =
      exStoreP.map fun q =>
        if q.youtube_id.isNone then
          { q with youtube_id := some (exCreate q), modified := some 7 }
        else q :=
  ⟨by decide, (push_playlists_correct 7 exCreate exStoreP (by decide)).2⟩

theorem mergeTrack_id (t : TrackRec) (a n : String) (d : Option Nat) :
    (mergeTrack t a n d).id = t.id := rfl

theorem trackSet_found (store : List TrackRec) (a n : String) (d : Option Nat)
    (t : TrackRec) (hfind : store.find? (fun u => u.id == trackId a n) = some t) :
    trackSet store a n d =
      (store.map fun u => if u.id == trackId a n then mergeTrack t a n d else u,
        mergeTrack t a n d) := by
  simp only [trackSet]
  rw [hfind]

theorem trackSet_not_found (store : List TrackRec) (a n : String) (d : Option Nat)
    (hfind : store.find? (fun u => u.id == trackId a n) = none) :
    trackSet store a n d =
      (store ++ [⟨trackId a n, a, n, d, none⟩], ⟨trackId a n, a, n, d, none⟩) := by
  simp only [trackSet]
  rw [hfind]

theorem trackSet_id_mem (store : List TrackRec) (a n : String) (d : Option Nat) :
    ∃ t2 ∈ (trackSet store a n d).1, t2.id = (trackSet store a n d).2.id := by
  rcases hfind : store.find? (fun u => u.id == trackId a n) with _ | t
  · rw [trackSet_not_found store a n d hfind]
    exact ⟨_, List.mem_append_right store (List.mem_singleton_self _), rfl⟩
  · rw [trackSet_found store a n d t hfind]
    refine ⟨mergeTrack t a n d, ?_, rfl⟩
    have hmem := List.mem_of_find?_eq_some hfind
    have hp := List.find?_some hfind
    refine List.mem_map.mpr ⟨t, hmem, ?_⟩
    show (if t.id == trackId a n then mergeTrack t a n d else t) = mergeTrack t a n d
    rw [if_pos hp]

theorem trackSet_preserves (store : List TrackRec) (a n : String) (d : Option Nat)
    (x : String) (hx : ∃ t2 ∈ store, t2.id = x) :
    ∃ t2 ∈ (trackSet store a n d).1, t2.id = x := by
  obtain ⟨t2, ht2, rfl⟩ := hx
  rcases hfind : store.find? (fun u => u.id == trackId a n) with _ | t
  · rw [trackSet_not_found store a n d hfind]
    exact ⟨t2, List.mem_append_left _ ht2, rfl⟩
  · rw [trackSet_found store a n d t hfind]
    by_cases hb : (t2.id == trackId a n) = true
    · have ht := List.find?_some hfind
      have hte : t.id = trackId a n := by simpa using ht
      have ht2e : t2.id = trackId a n := by simpa using hb
      refine ⟨mergeTrack t a n d, ?_, ?_⟩
      · refine List.mem_map.mpr ⟨t2, ht2, ?_⟩
        show (if t2.id == trackId a n then mergeTrack t a n d else t2) = mergeTrack t a n d
        rw [if_pos hb]
      · rw [mergeTrack_id, hte, ht2e]
    · refine ⟨t2, ?_, rfl⟩
      refine List.mem_map.mpr ⟨t2, ht2, ?_⟩
      show (if t2.id == trackId a n then mergeTrack t a n d else t2) = t2
      rw [if_neg hb]

theorem trackSetFold_go :
    ∀ (ts : List FetchedTrack) (store : List TrackRec) (acc : List String),
      (∀ x ∈ acc, ∃ t ∈ store, t.id = x) →
      ∀ x ∈ (ts.foldl
              (fun acc2 e =>
                let out := trackSet acc2.1 e.artist e.name e.duration
                (out.1, acc2.2 ++ [out.2.id]))
              (store, acc)).2,
        ∃ t ∈ (ts.foldl
                (fun acc2 e =>
                  let out := trackSet acc2.1 e.artist e.name e.duration
                  (out.1, acc2.2 ++ [out.2.id]))
                (store, acc)).1, t.id = x
  | [], _, _ => fun h x hx => h x hx
  | e :: rest, store, acc => fun h x hx => by
    rw [List.foldl_cons] at hx ⊢
    refine trackSetFold_go rest _ _ ?_ x hx
    intro y hy
    rcases List.mem_append.mp hy with hy | hy
    · exact trackSet_preserves _ _ _ _ y (h y hy)
    · have hy2 : y = (trackSet store e.artist e.name e.duration).2.id := by
        simpa using hy
      rw [hy2]
      exact trackSet_id_mem store e.artist e.name e.duration

/-- C6: after the lastfm `sync` command processes a playlist, the playlist's
`tracks` list is exactly the duplicate-collapsed list of the ids returned by
`TrackManager.set` for the fetched tracklist entries, and every id in it
belongs to a record of the resulting track collection. -/
theorem sync_playlists_tracks_exist (now : Nat) (store : List TrackRec) (p : Playlist)
    (ts : List FetchedTrack) :
    ((syncOnePlaylist now store p ts).2.tracks).Nodup ∧
    ((syncOnePlaylist now store p ts).2.tracks).toFinset =
      ((trackSetFold store ts).2).toFinset ∧
    ∀ x ∈ (syncOnePlaylist now store p ts).2.tracks,
      ∃ t ∈ (syncOnePlaylist now store p ts).1, t.id = x := by
  refine ⟨List.nodup_dedup _, ?_, ?_⟩
  · show ((trackSetFold store ts).2.dedup).toFinset = _
    ext v
    simp [List.mem_toFinset, List.mem_dedup]
  · intro x hx
    have hx2 : x ∈ (trackSetFold store ts).2 := List.mem_dedup.mp hx
    exact trackSetFold_go ts store [] (by simp) x hx2

/-- Fixture tracklist fetched from the listening-history service. -/
def exFetched : List FetchedTrack := [⟨"A", "N", some 3⟩]

theorem sync_playlists_tracks_exist_witness :
    "a::n" ∈ (syncOnePlaylist 7 [] exPlaylist exFetched).2.tracks ∧
    ∃ t ∈ (syncOnePlaylist 7 [] exPlaylist exFetched).1, t.id = "a::n" :=
  ⟨by decide,
    (sync_playlists_tracks_exist 7 [] exPlaylist exFetched).2.2 "a::n" (by decide)⟩

theorem playlistSet_found (store : List Playlist) (now : Nat) (ty prov : String)
    (args : List (String × String)) (limit : Int) (title : String) (q : Playlist)
    (hfind : store.find? (fun u => u.id == playlistId ty prov args limit) = some q) :
    playlistSet store now ty prov args limit title =
      (store.map fun u =>
        if u.id == playlistId ty prov args limit then
          { q with title := title, modified := some now }
        else u,
       { q with title := title, modified := some now }) := by
  simp only [playlistSet]
  rw [hfind]

theorem playlistSet_not_found (store : List Playlist) (now : Nat) (ty prov : String)
    (args : List (String × String)) (limit : Int) (title : String)
    (hfind : store.find? (fun u => u.id == playlistId ty prov args limit) = none) :
    playlistSet store now ty prov args limit title =
      (store ++
        [{ id := playlistId ty prov args limit, type := ty, provider := prov,
           arguments := args, limit := limit, title := title, tracks := [],
           youtube_id := none, modified := some now, synced := none, uploaded := none }],
       { id := playlistId ty prov args limit, type := ty, provider := prov,
         arguments := args, limit := limit, title := title, tracks := [],
         youtube_id := none, modified := some now, synced := none, uploaded := none }) := by
  simp only [playlistSet]
  rw [hfind]

/-- Fixture stored playlist whose `synced` timestamp is the integer `0`
(falsy in Python), keyed by the chart/lastfm identity. -/
def exSyncedZero : Playlist :=
  { id := playlistId "chart" "lastfm" [] 50, type := "chart", provider := "lastfm",
    arguments := [], limit := 50, title := "old", tracks := [], youtube_id := none,
    modified := none, synced := some 0, uploaded := none }

theorem add_playlist_message_cex :
    ((playlistSet [exSyncedZero] 9 "chart" "lastfm" [] 50 "new").2.synced).isSome = true ∧
    addPlaylistMessage (playlistSet [exSyncedZero] 9 "chart" "lastfm" [] 50 "new").2 ≠
      "Updated playlist: " ++
        (playlistSet [exSyncedZero] 9 "chart" "lastfm" [] 50 "new").2.id ++ "!" ∧
    addPlaylistMessage (playlistSet [exSyncedZero] 9 "chart" "lastfm" [] 50 "new").2 =
      "Added playlist: " ++
        (playlistSet [exSyncedZero] 9 "chart" "lastfm" [] 50 "new").2.id ++ "!" :=
  ⟨by decide, by decide, by decide⟩

/-- C4 (amended): every lastfm `add` command prints
`"Updated playlist: <id>!"` when the record returned by `PlaylistManager.set`
has a truthy (non-null, non-zero) `synced` value and `"Added playlist: <id>!"`
otherwise; a fresh insert returns `synced` unset and an update returns the
stored record's `synced` unchanged. -/
theorem add_playlist_message_amended (store : List Playlist) (now : Nat)
    (ty prov : String) (args : List (String × String)) (limit : Int) (title : String) :
    (syncedTruthy (playlistSet store now ty prov args limit title).2.synced = true →
      addPlaylistMessage (playlistSet store now ty prov args limit title).2 =
        "Updated playlist: " ++ (playlistSet store now ty prov args limit title).2.id ++ "!") ∧
    (syncedTruthy (playlistSet store now ty prov args limit title).2.synced = false →
      addPlaylistMessage (playlistSet store now ty prov args limit title).2 =
        "Added playlist: " ++ (playlistSet store now ty prov args limit title).2.id ++ "!") ∧
    (store.find? (fun u => u.id == playlistId ty prov args limit) = none →
      (playlistSet store now ty prov args limit title).2.synced = none) ∧
    (∀ q, store.find? (fun u => u.id == playlistId ty prov args limit) = some q →
      (playlistSet store now ty prov args limit title).2.synced = q.synced) := by
  refine ⟨?_, ?_, ?_, ?_⟩
  · intro h
    rw [addPlaylistMessage, if_pos h]
    rfl
  · intro h
    rw [addPlaylistMessage, if_neg (by simp [h])]
    rfl
  · intro hfind
    rw [playlistSet_not_found store now ty prov args limit title hfind]
  · intro q hfind
    rw [playlistSet_found store now ty prov args limit title q hfind]

/-- Fixture stored playlist with a genuine (truthy) `synced` timestamp. -/
def exSyncedSet : Playlist := { exSyncedZero with synced := some 111 }

theorem add_playlist_message_amended_witness :
    syncedTruthy (playlistSet [exSyncedSet] 9 "chart" "lastfm" [] 50 "new").2.synced = true ∧
    addPlaylistMessage (playlistSet [exSyncedSet] 9 "chart" "lastfm" [] 50 "new").2 =
      "Updated playlist: " ++
        (playlistSet [exSyncedSet] 9 "chart" "lastfm" [] 50 "new").2.id ++ "!" :=
  ⟨by decide,
    (add_playlist_message_amended [exSyncedSet] 9 "chart" "lastfm" [] 50 "new").1 (by decide)⟩

/-- C7: both providers' `setup` commands prompt for overwrite confirmation
exactly when a configuration record for the provider already exists; a
declined confirmation aborts with a non-zero exit and leaves the stored
configuration unchanged; otherwise `ConfigManager.set` stores the new
record — hence a fresh setup never prompts. -/
theorem setup_overwrite_confirmation (existing : Option ConfigRec) (confirm : Bool)
    (apiKey : String) (creds : List (String × String)) :
    ((lastfmSetup existing confirm apiKey).1 = existing.isSome ∧
      (youtubeSetup existing confirm creds).1 = existing.isSome) ∧
    (existing.isSome = true → confirm = false →
      (lastfmSetup existing confirm apiKey).2.1 = existing ∧
      (lastfmSetup existing confirm apiKey).2.2 ≠ 0 ∧
      (youtubeSetup existing confirm creds).2.1 = existing ∧
      (youtubeSetup existing confirm creds).2.2 ≠ 0) ∧
    ((existing = none ∨ confirm = true) →
      (lastfmSetup existing confirm apiKey).2.1 =
        some ⟨"lastfm", [("api_key", apiKey)]⟩ ∧
      (lastfmSetup existing confirm apiKey).2.2 = 0 ∧
      (youtubeSetup existing confirm creds).2.1 = some ⟨"youtube", creds⟩ ∧
      (youtubeSetup existing confirm creds).2.2 = 0) := by
  cases existing with
  | none => cases confirm <;> simp [lastfmSetup, youtubeSetup, setupCommand]
  | some c => cases confirm <;> simp [lastfmSetup, youtubeSetup, setupCommand]

theorem setup_overwrite_confirmation_witness :
    (some (⟨"lastfm", []⟩ : ConfigRec)).isSome = true ∧
    (lastfmSetup (some ⟨"lastfm", []⟩) false "k").2.1 = some ⟨"lastfm", []⟩ ∧
    (lastfmSetup (some ⟨"lastfm", []⟩) false "k").2.2 ≠ 0 := by
  have h := (setup_overwrite_confirmation (some ⟨"lastfm", []⟩) false "k" []).2.1 rfl rfl
  exact ⟨rfl, h.1, h.2.1⟩

theorem removeLoop_calls :
    ∀ (ids : List String) (store : List Playlist) (acc : List String),
      (∃ k, removeCallIds (removeLoop store ids acc).1 = acc ++ ids.take k) ∧
      (∀ cs, (removeLoop store ids acc).1 = RemoveOutcome.completed cs → cs = acc ++ ids)
  | [], store, acc => by
    constructor
    · exact ⟨0, by simp [removeLoop, removeCallIds]⟩
    · intro cs h
      simp only [removeLoop] at h
      injection h with h2
      simp [← h2]
  | pid :: rest, store, acc => by
    rcases hrem : playlistRemove store pid with _ | s
    · constructor
      · refine ⟨1, ?_⟩
        simp [removeLoop, hrem, removeCallIds]
      · intro cs h
        simp only [removeLoop, hrem] at h
        exact RemoveOutcome.noConfusion h
    · have ih := removeLoop_calls rest s (acc ++ [pid])
      have hstep : removeLoop store (pid :: rest) acc = removeLoop s rest (acc ++ [pid]) := by
        simp only [removeLoop, hrem]
      constructor
      · obtain ⟨k, hk⟩ := ih.1
        refine ⟨k + 1, ?_⟩
        rw [hstep, hk]
        simp [List.take_succ_cons]
      · intro cs h
        rw [hstep] at h
        have h2 := ih.2 cs h
        rw [h2]
        simp

theorem remove_calls_cex :
    (removePlaylistsCmd true [] ["a", "b"]).1 = RemoveOutcome.failedNotFound ["a"] ∧
    removeCallIds (removePlaylistsCmd true [] ["a", "b"]).1 ≠ ["a", "b"] :=
  ⟨by decide, by decide⟩

/-- C8 (amended): a declined confirmation makes `remove` exit non-zero with
zero `PlaylistManager.remove` calls and no mutation; when confirmed, the
remove calls are a prefix of the given ids in the given order (a `NotFound`
failure stops the loop right after the failing call), and a run that
completes without failure calls `PlaylistManager.remove` exactly once per
given id, in the order the ids were given. -/
theorem remove_command_amended (store : List Playlist) (ids : List String) :
    (removePlaylistsCmd false store ids = (RemoveOutcome.abortedConfirm, store) ∧
      removeCallIds (removePlaylistsCmd false store ids).1 = [] ∧
      removeExitCode (removePlaylistsCmd false store ids).1 ≠ 0) ∧
    (∃ k, removeCallIds (removePlaylistsCmd true store ids).1 = ids.take k) ∧
    (∀ cs, (removePlaylistsCmd true store ids).1 = RemoveOutcome.completed cs →
      cs = ids) := by
  refine ⟨⟨rfl, rfl, by simp [removePlaylistsCmd, removeExitCode]⟩, ?_, ?_⟩
  · obtain ⟨k, hk⟩ := (removeLoop_calls ids store []).1
    exact ⟨k, by simpa [removePlaylistsCmd] using hk⟩
  · intro cs h
    have h2 : (removeLoop store ids []).1 = RemoveOutcome.completed cs := by
      simpa [removePlaylistsCmd] using h
    have h3 := (removeLoop_calls ids store []).2 cs h2
    simpa using h3

/-- Fixture playlist store for the remove command. -/
def exRemStore : List Playlist := [{ exPlaylist with id := "a" }]

theorem remove_command_amended_witness :
    (removePlaylistsCmd true exRemStore ["a"]).1 = RemoveOutcome.completed ["a"] ∧
    (["a"] : List String) = ["a"] :=
  ⟨by decide, (remove_command_amended exRemStore ["a"]).2.2 ["a"] (by decide)⟩

/-- C9: `CountryParamType.convert` fails with a validation error, before any
playlist mutation, on every input whose uppercase form is not a key of the
`countries` mapping, and on a known code (in any letter case, since the input
is uppercased first) returns the mapped country name lowercased. -/
theorem country_param_convert (countries : List (String × String)) (value : String) :
    (lookupKey countries (upperStr value) = none →
      countryConvert countries value =
        Except.error ("Unknown iso-3166 country code: " ++ value) ∧
      ∀ (store : List Playlist) (now : Nat) (limit : Int) (title : String),
        (addCountryCommand countries store now value limit title).1 = store ∧
        (addCountryCommand countries store now value limit title).2 =
          Except.error ("Unknown iso-3166 country code: " ++ value)) ∧
    (∀ name, lookupKey countries (upperStr value) = some name →
      countryConvert countries value = Except.ok (lowerStr name)) := by
  constructor
  · intro hnone
    have hcc : countryConvert countries value =
        Except.error ("Unknown iso-3166 country code: " ++ value) := by
      simp only [countryConvert]
      rw [hnone]
    refine ⟨hcc, ?_⟩
    intro store now limit title
    constructor
    · simp only [addCountryCommand]
      rw [hcc]
    · simp only [addCountryCommand]
      rw [hcc]
  · intro name hsome
    simp only [countryConvert]
    rw [hsome]

theorem country_param_convert_witness :
    countryConvert [("GR", "Greece")] "gr" = Except.ok "greece" ∧
    (addCountryCommand [("GR", "Greece")] [] 9 "zz" 100 "t").1 = [] := by
  constructor
  · have h := (country_param_convert [("GR", "Greece")] "gr").2 "Greece" (by decide)
    rw [h]
    rfl
  · exact (((country_param_convert [("GR", "Greece")] "zz").1 (by decide)).2 [] 9 100 "t").1

/-- C10: `option_limit` accepts exactly the integers of the inclusive range
50..1000; a rejected value aborts the `add` pipeline before
`PlaylistManager.set` can mutate the store; and the prompt default is the
last-used limit stored in `History`, falling back to 50. -/
theorem option_limit_range (hist : List (String × Nat)) (v : Int) (store : List Playlist)
    (now : Nat) (title : String) :
    (intRange 50 1000 v = Except.ok v ↔ 50 ≤ v ∧ v ≤ 1000) ∧
    (¬ (50 ≤ v ∧ v ≤ 1000) →
      (addChartCommand store now v title).1 = store ∧
      (addChartCommand store now v title).2 = Except.error "value out of range") ∧
    (∀ kv, (hist.find? fun x => x.1 == "limit") = some kv → defaultLimit hist = kv.2) ∧
    ((hist.find? fun x => x.1 == "limit") = none → defaultLimit hist = 50) := by
  refine ⟨⟨?_, ?_⟩, ?_, ?_, ?_⟩
  · intro hok
    by_contra hc
    rw [intRange, if_neg hc] at hok
    cases hok
  · intro hc
    rw [intRange, if_pos hc]
  · intro hc
    have hir : intRange 50 1000 v = Except.error "value out of range" := by
      rw [intRange, if_neg hc]
    constructor
    · simp only [addChartCommand]
      rw [hir]
    · simp only [addChartCommand]
      rw [hir]
  · intro kv hkv
    simp [defaultLimit, historyGetNat, hkv]
  · intro hnone
    simp [defaultLimit, historyGetNat, hnone]

theorem option_limit_range_witness :
    ¬ ((50 : Int) ≤ 2000 ∧ (2000 : Int) ≤ 1000) ∧
    (addChartCommand [] 9 2000 "t").1 = [] ∧
    defaultLimit [("limit", 75)] = 75 := by
  refine ⟨by decide, ?_, ?_⟩
  · exact ((option_limit_range [("limit", 75)] 2000 [] 9 "t").2.1 (by decide)).1
  · exact (option_limit_range [("limit", 75)] 2000 [] 9 "t").2.2.1 ("limit", 75) (by decide)
